import Mathlib

/-!
Verification of the Email-automation repository.

Part 1 embeds the two pure functions present in the source file
streamlit_app.py: the Perplexity payload cleaner clean_payload and the
markdown-table extractor simple_extract_table.

Part 2 models, from the specification document, the components of the
batch-dispatch core that the specification describes but whose code is not
present in the repository snapshot: the template variable resolver, the
content normalizer (fragment-to-document wrapping and markdown-lite
conversion), and the batch dispatch controller.
-/

set_option maxRecDepth 4000

/-! ## Part 1a: clean_payload (src/streamlit_app.py lines 3-19) -/

/-- A JSON-like Python value as handled by clean_payload: scalars, lists
and string-keyed dicts (modelled as association lists, which for values
originating from Python dicts carry no duplicate keys). -/
inductive PVal where
  | str : String → PVal
  | int : Int → PVal
  | bool : Bool → PVal
  | null : PVal
  | arr : List PVal → PVal
  | obj : List (String × PVal) → PVal

/-- The keys popped by clean_payload: return_images,
return_related_questions, stream. -/
def isBanned (k : String) : Bool :=
  k == "return_images" || k == "return_related_questions" || k == "stream"

mutual

/-- Embedding of clean_payload: copy the dict, drop the unsupported keys,
keep booleans as booleans (the bool(v) pass of the source is the
identity), then recursively clean dict values and dict elements of list
values.  The source filters the banned keys first and then rewrites the
remaining values in place; on an association list without duplicate keys
this is the same as the fused single traversal below. -/
def clean_payload : List (String × PVal) → List (String × PVal)
  | [] => []
  | (k, v) :: rest =>
    if isBanned k then clean_payload rest
    else (k, cleanVal v) :: clean_payload rest

/-- The value transformation applied by clean_payload to each retained
value: nested dicts are cleaned, lists have their dict elements cleaned
(non-dict elements, including nested lists, are kept as-is), all other
values pass through. -/
def cleanVal : PVal → PVal
  | .obj d => .obj (clean_payload d)
  | .arr l => .arr (cleanElems l)
  | v => v

/-- The list comprehension of clean_payload: clean dict elements, keep
every other element unchanged. -/
def cleanElems : List PVal → List PVal
  | [] => []
  | .obj d :: rest => .obj (clean_payload d) :: cleanElems rest
  | v :: rest => v :: cleanElems rest

end

mutual

/-- A dict is banned-free when none of its keys is an unsupported key and
every dict reachable from it (as a dict value, or as an element of a list
value) is banned-free as well. -/
def bannedFree : List (String × PVal) → Bool
  | [] => true
  | (k, v) :: rest => !isBanned k && valBannedFree v && bannedFree rest

/-- Banned-freeness of the dicts reachable from one value. -/
def valBannedFree : PVal → Bool
  | .obj d => bannedFree d
  | .arr l => elemsBannedFree l
  | _ => true

/-- Banned-freeness of the dict elements of a list value. -/
def elemsBannedFree : List PVal → Bool
  | [] => true
  | .obj d :: rest => bannedFree d && elemsBannedFree rest
  | _ :: rest => elemsBannedFree rest

end

mutual

theorem clean_payload_bannedFree (d : List (String × PVal)) :
    bannedFree (clean_payload d) = true := by
  match d with
  | [] => rfl
  | (k, v) :: rest =>
    by_cases hk : isBanned k = true
    · simp only [clean_payload, hk, if_true]
      exact clean_payload_bannedFree rest
    · simp only [clean_payload, hk, if_false, bannedFree,
        Bool.not_eq_true] at hk ⊢
      simp [hk, cleanVal_bannedFree v, clean_payload_bannedFree rest]

theorem cleanVal_bannedFree (v : PVal) : valBannedFree (cleanVal v) = true := by
  match v with
  | .obj d => simpa [cleanVal, valBannedFree] using clean_payload_bannedFree d
  | .arr l => simpa [cleanVal, valBannedFree] using cleanElems_bannedFree l
  | .str s => rfl
  | .int n => rfl
  | .bool b => rfl
  | .null => rfl

theorem cleanElems_bannedFree (l : List PVal) :
    elemsBannedFree (cleanElems l) = true := by
  match l with
  | [] => rfl
  | .obj d :: rest =>
    simp [cleanElems, elemsBannedFree, clean_payload_bannedFree d,
      cleanElems_bannedFree rest]
  | .str s :: rest => simpa [cleanElems, elemsBannedFree] using cleanElems_bannedFree rest
  | .int n :: rest => simpa [cleanElems, elemsBannedFree] using cleanElems_bannedFree rest
  | .bool b :: rest => simpa [cleanElems, elemsBannedFree] using cleanElems_bannedFree rest
  | .null :: rest => simpa [cleanElems, elemsBannedFree] using cleanElems_bannedFree rest
  | .arr l2 :: rest => simpa [cleanElems, elemsBannedFree] using cleanElems_bannedFree rest

end

/-- Claim C8: for every dict payload, no dict reachable in the result of
clean_payload — at the top level, nested as a dict value, or nested as an
element of a list value — contains any of the keys return_images,
return_related_questions or stream. -/
theorem clean_payload_no_banned_keys (d : List (String × PVal)) :
    bannedFree (clean_payload d) = true :=
  clean_payload_bannedFree d

mutual

theorem clean_payload_idem (d : List (String × PVal)) :
    clean_payload (clean_payload d) = clean_payload d := by
  match d with
  | [] => rfl
  | (k, v) :: rest =>
    by_cases hk : isBanned k = true
    · simp only [clean_payload, hk, if_true]
      exact clean_payload_idem rest
    · simp only [clean_payload, hk, if_false, Bool.not_eq_true] at hk ⊢
      simp [clean_payload, hk, cleanVal_idem v, clean_payload_idem rest]

theorem cleanVal_idem (v : PVal) : cleanVal (cleanVal v) = cleanVal v := by
  match v with
  | .obj d => simp [cleanVal, clean_payload_idem d]
  | .arr l => simp [cleanVal, cleanElems_idem l]
  | .str s => rfl
  | .int n => rfl
  | .bool b => rfl
  | .null => rfl

theorem cleanElems_idem (l : List PVal) :
    cleanElems (cleanElems l) = cleanElems l := by
  match l with
  | [] => rfl
  | .obj d :: rest =>
    simp [cleanElems, clean_payload_idem d, cleanElems_idem rest]
  | .str s :: rest => simp [cleanElems, cleanElems_idem rest]
  | .int n :: rest => simp [cleanElems, cleanElems_idem rest]
  | .bool b :: rest => simp [cleanElems, cleanElems_idem rest]
  | .null :: rest => simp [cleanElems, cleanElems_idem rest]
  | .arr l2 :: rest => simp [cleanElems, cleanElems_idem rest]

end

/-- Claim C9: clean_payload is idempotent — cleaning an already-cleaned
payload changes nothing.  (The source builds a fresh dict with dict(payload)
and fresh lists at every modified nesting level, so the argument itself is
never mutated; in this pure embedding that aspect is inherent.) -/
theorem clean_payload_idempotent (d : List (String × PVal)) :
    clean_payload (clean_payload d) = clean_payload d :=
  clean_payload_idem d

/-! ## Part 1b: simple_extract_table (src/streamlit_app.py lines 373-398) -/

/-- Python str.split on a single separator character: returns the list of
(possibly empty) chunks between occurrences of the separator. -/
def splitOnChar (sep : Char) : List Char → List (List Char)
  | [] => [[]]
  | c :: rest =>
    let r := splitOnChar sep rest
    if c = sep then [] :: r
    else
      match r with
      | [] => [[c]]
      | h :: t => (c :: h) :: t

/-- Python str.strip(): drop whitespace from both ends. -/
def pyStrip (l : List Char) : List Char :=
  (((l.dropWhile fun ch => ch.isWhitespace).reverse.dropWhile
    fun ch => ch.isWhitespace)).reverse

/-- The cell list of one table line: split on the pipe character, strip
each cell, keep the non-empty ones — the row-cell comprehension of the source. -/
def cells (l : List Char) : List (List Char) :=
  ((splitOnChar '|' l).map pyStrip).filter fun c => !c.isEmpty

/-- The filtered table lines of the content: the lines of the stripped
content that contain a pipe and whose stripped form does not start with
the pipe-dash-dash-dash separator marker. -/
def tableLines (content : List Char) : List (List Char) :=
  (splitOnChar '\n' (pyStrip content)).filter fun l =>
    l.contains '|' && !(List.isPrefixOf "|---".data (pyStrip l))

/-- The row-collection loop of simple_extract_table: keep the cell lists of
the lines after the header whose length equals the header length. -/
def buildRows (n : Nat) : List (List Char) → List (List (List Char))
  | [] => []
  | l :: rest =>
    let row := cells l
    if row.length == n then row :: buildRows n rest else buildRows n rest

/-- Embedding of simple_extract_table on the message content string: None
when fewer than two table lines survive the filter, otherwise the header
cells of the first table line paired with the matching-width rows of the
remaining table lines (the columns and data of the DataFrame). -/
def simple_extract_table (content : String) :
    Option (List (List Char) × List (List (List Char))) :=
  match tableLines content.data with
  | first :: l2 :: rest =>
    let headers := cells first
    some (headers, buildRows headers.length (l2 :: rest))
  | _ => none

theorem buildRows_eq_filter_map (n : Nat) (ls : List (List Char)) :
    buildRows n ls = (ls.filter fun l => (cells l).length == n).map cells := by
  induction ls with
  | nil => rfl
  | cons l rest ih =>
    by_cases h : ((cells l).length == n) = true
    · simp [buildRows, List.filter_cons, h, ih]
    · simp only [Bool.not_eq_true] at h
      simp [buildRows, List.filter_cons, h, ih]

/-- Claim C10: simple_extract_table returns None exactly when fewer than
two lines of the message content both contain a pipe and do not start
(after stripping) with the pipe-dash-dash-dash marker; otherwise it
returns the non-empty cells of the first such line as columns together
with exactly those subsequent table lines whose non-empty-cell count
equals the header width, in order of appearance. -/
theorem simple_extract_table_spec (content : String) :
    (simple_extract_table content = none ↔
      (tableLines content.data).length < 2)
    ∧ (∀ h rows, simple_extract_table content = some (h, rows) →
        ∃ first rest, tableLines content.data = first :: rest ∧
          h = cells first ∧
          rows = (rest.filter fun l =>
            (cells l).length == h.length).map cells) := by
  constructor
  · unfold simple_extract_table
    match htl : tableLines content.data with
    | [] => simp
    | [a] => simp
    | a :: b :: rest => simp
  · intro h rows hsome
    unfold simple_extract_table at hsome
    match htl : tableLines content.data with
    | [] => rw [htl] at hsome; exact absurd hsome (by simp)
    | [a] => rw [htl] at hsome; exact absurd hsome (by simp)
    | a :: b :: rest =>
      rw [htl] at hsome
      simp only [Option.some.injEq, Prod.mk.injEq] at hsome
      refine ⟨a, b :: rest, rfl, hsome.1.symm, ?_⟩
      rw [← hsome.2, hsome.1, buildRows_eq_filter_map]

/-- Witness for C10 on a concrete two-line table. -/
theorem simple_extract_table_spec_witness :
    ∃ first rest, tableLines ("A|B\nc|d" : String).data = first :: rest ∧
      cells "A|B".data = cells first ∧
      [cells "c|d".data] = (rest.filter fun l =>
        (cells l).length == (cells "A|B".data).length).map cells :=
  (simple_extract_table_spec "A|B\nc|d").2 (cells "A|B".data)
    [cells "c|d".data] (by decide)

/-! ## Part 2a: Batch Dispatch Controller (modelled from the spec) -/

/-- Modelled from the spec: the outcome of one call to the delivery
collaborator — the send is accepted, rejected with a reason, or raises an
unexpected error while processing the recipient (spec section 4.3 step 4;
the controller code itself is not in the repository snapshot). -/
inductive SendOutcome where
  | accepted : SendOutcome
  | rejected : String → SendOutcome
  | crashed : String → SendOutcome

/-- Modelled from the spec: the terminal per-recipient status. -/
inductive DStatus where
  | sent : DStatus
  | failed : DStatus
deriving DecidableEq

/-- Modelled from the spec: a DispatchRecord — recipient identity, status,
error detail (present iff Failed), and sequence index. -/
structure DispatchRecord where
  recipient : String
  status : DStatus
  error : Option String
  index : Nat
deriving DecidableEq

/-- Modelled from the spec: the CampaignOutcome ledger — the ordered
DispatchRecord sequence with the running successful/failed counts. -/
structure Ledger where
  records : List DispatchRecord
  successful : Nat
  failed : Nat
deriving DecidableEq

/-- The number of recipients processed so far: the length of the ledger. -/
def Ledger.processed (L : Ledger) : Nat := L.records.length

def emptyLedger : Ledger := ⟨[], 0, 0⟩

/-- Modelled from the spec: the progress fraction processed/total. -/
def progressFrac (L : Ledger) (total : Nat) : ℚ :=
  (L.processed : ℚ) / (total : ℚ)

/-- The DispatchRecord produced for one recipient: Sent on acceptance,
Failed with the error detail on rejection or any unexpected error. -/
def recordFor (send : String → SendOutcome) (idx : Nat) (r : String) :
    DispatchRecord :=
  match send r with
  | .accepted => ⟨r, .sent, none, idx⟩
  | .rejected e => ⟨r, .failed, some e, idx⟩
  | .crashed m => ⟨r, .failed, some m, idx⟩

/-- Modelled from the spec: one loop iteration of the controller — attempt
the send, append exactly one DispatchRecord, bump the matching counter.
A rejection or an unexpected error is caught and converted into a Failed
record; the loop always continues (failure isolation). -/
def stepRecipient (send : String → SendOutcome) (L : Ledger) (idx : Nat)
    (r : String) : Ledger :=
  match send r with
  | .accepted => ⟨L.records ++ [⟨r, .sent, none, idx⟩], L.successful + 1, L.failed⟩
  | .rejected e => ⟨L.records ++ [⟨r, .failed, some e, idx⟩], L.successful, L.failed + 1⟩
  | .crashed m => ⟨L.records ++ [⟨r, .failed, some m, idx⟩], L.successful, L.failed + 1⟩

/-- Modelled from the spec: the dispatch loop over the remaining
recipients, strictly in input row order, starting at sequence index idx. -/
def dispatchFrom (send : String → SendOutcome) (idx : Nat) :
    List String → Ledger → Ledger
  | [], L => L
  | r :: rest, L => dispatchFrom send (idx + 1) rest (stepRecipient send L idx r)

/-- The ledger of a full dispatch pass over the recipient sequence. -/
def dispatchLedger (send : String → SendOutcome) (rs : List String) : Ledger :=
  dispatchFrom send 0 rs emptyLedger

/-- Modelled from the spec: the controller-level failure classes. -/
inductive RunError where
  | validationError : String → RunError
  | authenticationError : String → RunError
deriving DecidableEq

/-- Modelled from the spec: the result of one campaign run — the outcome
ledger plus the fatal error, if any. -/
structure CampaignResult where
  ledger : Ledger
  error : Option RunError
deriving DecidableEq

/-- Modelled from the spec: the Batch Dispatch Controller run.  The
delivery-channel token is acquired lazily on first use, i.e. when the
first recipient is about to be attempted; if acquisition fails the whole
run aborts immediately with AuthenticationError and an empty ledger, and
no recipient is attempted. -/
def runCampaign (acquire : Unit → Except String Nat)
    (send : String → SendOutcome) (rs : List String) : CampaignResult :=
  match rs with
  | [] => ⟨emptyLedger, none⟩
  | r :: rest =>
    match acquire () with
    | .error e => ⟨emptyLedger, some (.authenticationError e)⟩
    | .ok _ => ⟨dispatchLedger send (r :: rest), none⟩

/-- Recipient rows paired with their sequence indices, starting at idx. -/
def enumFromIdx : Nat → List String → List (Nat × String)
  | _, [] => []
  | i, r :: rest => (i, r) :: enumFromIdx (i + 1) rest

theorem dispatchFrom_records (send : String → SendOutcome) :
    ∀ (rs : List String) (idx : Nat) (L : Ledger),
      (dispatchFrom send idx rs L).records =
        L.records ++ (enumFromIdx idx rs).map fun p => recordFor send p.1 p.2
  | [], idx, L => by simp [dispatchFrom, enumFromIdx]
  | r :: rest, idx, L => by
    rw [dispatchFrom, dispatchFrom_records send rest (idx + 1)]
    cases hsr : send r <;>
      simp [stepRecipient, recordFor, enumFromIdx, hsr]

theorem dispatchFrom_counts (send : String → SendOutcome) :
    ∀ (rs : List String) (idx : Nat) (L : Ledger),
      (dispatchFrom send idx rs L).successful + (dispatchFrom send idx rs L).failed
        = L.successful + L.failed + rs.length
  | [], idx, L => by simp [dispatchFrom]
  | r :: rest, idx, L => by
    rw [dispatchFrom, dispatchFrom_counts send rest (idx + 1)]
    cases hsr : send r <;> simp [stepRecipient, hsr] <;> omega

theorem enumFromIdx_map_snd : ∀ (idx : Nat) (rs : List String),
    (enumFromIdx idx rs).map Prod.snd = rs
  | _, [] => rfl
  | idx, r :: rest => by
    rw [enumFromIdx, List.map_cons, enumFromIdx_map_snd (idx + 1) rest]

theorem enumFromIdx_length : ∀ (idx : Nat) (rs : List String),
    (enumFromIdx idx rs).length = rs.length
  | _, [] => rfl
  | idx, r :: rest => by
    rw [enumFromIdx, List.length_cons, List.length_cons,
      enumFromIdx_length (idx + 1) rest]

theorem recordFor_recipient (send : String → SendOutcome) (idx : Nat)
    (r : String) : (recordFor send idx r).recipient = r := by
  cases hsr : send r <;> simp [recordFor, hsr]

theorem dispatchLedger_map_recipient (send : String → SendOutcome)
    (rs : List String) :
    (dispatchLedger send rs).records.map DispatchRecord.recipient = rs := by
  unfold dispatchLedger
  rw [dispatchFrom_records]
  simp only [emptyLedger, List.nil_append, List.map_map]
  have h : ∀ p : Nat × String,
      (DispatchRecord.recipient ∘ fun q : Nat × String =>
        recordFor send q.1 q.2) p = Prod.snd p := by
    intro p; simp [Function.comp, recordFor_recipient]
  rw [List.map_congr_left fun p _ => h p, enumFromIdx_map_snd]

theorem dispatchLedger_length (send : String → SendOutcome) (rs : List String) :
    (dispatchLedger send rs).records.length = rs.length := by
  have := congrArg List.length (dispatchLedger_map_recipient send rs)
  simpa using this

theorem dispatchLedger_counts (send : String → SendOutcome) (rs : List String) :
    (dispatchLedger send rs).successful + (dispatchLedger send rs).failed
      = rs.length := by
  unfold dispatchLedger
  rw [dispatchFrom_counts]
  simp [emptyLedger]

theorem dispatchFrom_append (send : String → SendOutcome) :
    ∀ (xs ys : List String) (idx : Nat) (L : Ledger),
      dispatchFrom send idx (xs ++ ys) L =
        dispatchFrom send (idx + xs.length) ys (dispatchFrom send idx xs L)
  | [], ys, idx, L => by simp [dispatchFrom]
  | x :: rest, ys, idx, L => by
    rw [List.cons_append, dispatchFrom, dispatchFrom,
      dispatchFrom_append send rest ys (idx + 1)]
    congr 1
    simp [List.length_cons]
    omega

/-- Claim C1: throughout a dispatch run, successful + failed equals the
number of processed recipients after every initial segment of the run, the processed
count never decreases, the intermediate state after i recipients is
exactly the state the full run passes through, DispatchRecords appear in
the exact input row order, and progress after i of N recipients is
exactly i/N. -/
theorem dispatch_run_invariants (send : String → SendOutcome)
    (rs : List String) (i : Nat) :
    (dispatchLedger send (rs.take i)).successful
        + (dispatchLedger send (rs.take i)).failed
      = (dispatchLedger send (rs.take i)).processed
    ∧ (dispatchLedger send (rs.take i)).processed
        ≤ (dispatchLedger send (rs.take (i + 1))).processed
    ∧ dispatchLedger send rs
        = dispatchFrom send (rs.take i).length (rs.drop i)
            (dispatchLedger send (rs.take i))
    ∧ (dispatchLedger send rs).records.map DispatchRecord.recipient = rs
    ∧ (i ≤ rs.length →
        progressFrac (dispatchLedger send (rs.take i)) rs.length
          = (i : ℚ) / (rs.length : ℚ)) := by
  refine ⟨?_, ?_, ?_, dispatchLedger_map_recipient send rs, ?_⟩
  · rw [dispatchLedger_counts, Ledger.processed, dispatchLedger_length]
  · rw [Ledger.processed, Ledger.processed, dispatchLedger_length,
      dispatchLedger_length, List.length_take, List.length_take]
    omega
  · conv_lhs => rw [show rs = rs.take i ++ rs.drop i from
      (List.take_append_drop i rs).symm]
    unfold dispatchLedger
    rw [dispatchFrom_append]
    simp
  · intro hi
    have hp : (dispatchLedger send (rs.take i)).processed = i := by
      rw [Ledger.processed, dispatchLedger_length, List.length_take]
      omega
    rw [progressFrac, hp]

/-- Witness for C1 at a concrete three-recipient run with i = 2. -/
theorem dispatch_run_invariants_witness :
    progressFrac (dispatchLedger (fun _ => SendOutcome.accepted)
        ((["a", "b", "c"] : List String).take 2))
        (["a", "b", "c"] : List String).length
      = (2 : ℚ) / (((["a", "b", "c"] : List String).length : Nat) : ℚ) :=
  (dispatch_run_invariants (fun _ => SendOutcome.accepted)
    ["a", "b", "c"] 2).2.2.2.2 (by decide)

/-- A delivery oracle rejecting exactly recipient r2. -/
def rejectSecond : String → SendOutcome := fun r =>
  if r = "r2" then SendOutcome.rejected "rejected by channel"
  else SendOutcome.accepted

/-- A delivery oracle raising an unexpected error exactly at r2. -/
def crashSecond : String → SendOutcome := fun r =>
  if r = "r2" then SendOutcome.crashed "unexpected error"
  else SendOutcome.accepted

/-- Claim C2: every recipient yields exactly one DispatchRecord whatever
the send outcome, so a failure never prevents later recipients from being
attempted; with three recipients of which only r2 is rejected (or crashes
unexpectedly) the summary is total 3, successful 2, failed 1, the records
are in input order, r2 carries the single Failed record with its error
detail, and r1 and r3 are each attempted exactly once. -/
theorem dispatch_failure_isolation :
    (∀ (send : String → SendOutcome) (rs : List String),
      (dispatchLedger send rs).records.length = rs.length)
    ∧ (∀ (send : String → SendOutcome) (rs : List String),
      (dispatchLedger send rs).records.map DispatchRecord.recipient = rs)
    ∧ (dispatchLedger rejectSecond ["r1", "r2", "r3"]).records
        = [⟨"r1", .sent, none, 0⟩,
           ⟨"r2", .failed, some "rejected by channel", 1⟩,
           ⟨"r3", .sent, none, 2⟩]
    ∧ (dispatchLedger rejectSecond ["r1", "r2", "r3"]).processed = 3
    ∧ (dispatchLedger rejectSecond ["r1", "r2", "r3"]).successful = 2
    ∧ (dispatchLedger rejectSecond ["r1", "r2", "r3"]).failed = 1
    ∧ ((dispatchLedger rejectSecond ["r1", "r2", "r3"]).records.map
        DispatchRecord.recipient).count "r1" = 1
    ∧ ((dispatchLedger rejectSecond ["r1", "r2", "r3"]).records.map
        DispatchRecord.recipient).count "r3" = 1
    ∧ (dispatchLedger crashSecond ["r1", "r2", "r3"]).successful = 2
    ∧ (dispatchLedger crashSecond ["r1", "r2", "r3"]).failed = 1 :=
  ⟨dispatchLedger_length, dispatchLedger_map_recipient,
    by decide, by decide, by decide, by decide, by decide, by decide,
    by decide, by decide⟩

/-- Claim C3: when delivery-channel token acquisition fails, the run
aborts before any recipient is attempted — it signals AuthenticationError
and the outcome ledger contains zero DispatchRecords. -/
theorem auth_failure_aborts_run (e : String) (send : String → SendOutcome)
    (r : String) (rest : List String) :
    (runCampaign (fun _ => Except.error e) send (r :: rest)).ledger.records = []
    ∧ (runCampaign (fun _ => Except.error e) send (r :: rest)).ledger.processed = 0
    ∧ (runCampaign (fun _ => Except.error e) send (r :: rest)).error
        = some (RunError.authenticationError e) :=
  ⟨rfl, rfl, rfl⟩

/-! ## Part 2b: Template Variable Resolver (modelled from the spec) -/

/-- Modelled from the spec: a template element — a literal character or an
angle-bracket-delimited placeholder with its name (the resolver code
itself is not in the repository snapshot). -/
inductive Tok where
  | lit : Char → Tok
  | ph : String → Tok
deriving DecidableEq

/-- Binding lookup: the first value bound to the given placeholder name. -/
def lookupB : List (String × String) → String → Option String
  | [], _ => none
  | (k, v) :: rest, n => if k = n then some v else lookupB rest n

/-- Template scanner: an open angle bracket starts a placeholder whose
name runs to the matching closing bracket; an unterminated or restarted
placeholder is kept as literal text.  The accumulator holds the reversed
name collected so far. -/
def parseAux : Option (List Char) → List Char → List Tok
  | none, [] => []
  | none, c :: r =>
    if c = '<' then parseAux (some []) r else .lit c :: parseAux none r
  | some acc, [] => .lit '<' :: acc.reverse.map Tok.lit
  | some acc, c :: r =>
    if c = '>' then .ph (String.mk acc.reverse) :: parseAux none r
    else if c = '<' then
      (.lit '<' :: acc.reverse.map Tok.lit) ++ parseAux (some []) r
    else parseAux (some (c :: acc)) r

/-- Modelled from the spec: the single substitution pass over a parsed
template — every placeholder whose name is bound is replaced by the bound
value spliced in as literal text (so it is never re-scanned), and every
placeholder with no matching key is left untouched. -/
def substToks (b : List (String × String)) : List Tok → List Tok
  | [] => []
  | .lit c :: ts => .lit c :: substToks b ts
  | .ph n :: ts =>
    match lookupB b n with
    | some v => v.data.map Tok.lit ++ substToks b ts
    | none => .ph n :: substToks b ts

/-- Rendering a token sequence back to text; an unresolved placeholder
prints in its original angle-bracket form. -/
def renderToks : List Tok → List Char
  | [] => []
  | .lit c :: ts => c :: renderToks ts
  | .ph n :: ts => '<' :: (n.data ++ '>' :: renderToks ts)

/-- Modelled from the spec: resolve(template, bindings) in PlainMarkdown
mode — parse, substitute in one pass, render. -/
def resolve (template : String) (b : List (String × String)) : String :=
  String.mk (renderToks (substToks b (parseAux none template.data)))

/-- The number of placeholders with a given name in a token sequence. -/
def countPh (n : String) : List Tok → Nat
  | [] => 0
  | .ph m :: ts => (if m = n then 1 else 0) + countPh n ts
  | .lit _ :: ts => countPh n ts

theorem countPh_append (n : String) (xs ys : List Tok) :
    countPh n (xs ++ ys) = countPh n xs + countPh n ys := by
  induction xs with
  | nil => simp [countPh]
  | cons t ts ih =>
    cases t with
    | lit c => simp [countPh, ih]
    | ph m => simp [countPh, ih]; omega

theorem countPh_map_lit (n : String) (l : List Char) :
    countPh n (l.map Tok.lit) = 0 := by
  induction l with
  | nil => rfl
  | cons c rest ih => simp [countPh, ih]

/-- Claim C4: resolve leaves every placeholder whose name has no
corresponding key in the bindings unchanged in the output (pass-through,
not an error); in particular resolving "Hi <Name>" with empty bindings
yields "Hi <Name>" and with Name bound to Ada yields "Hi Ada". -/
theorem resolve_passthrough :
    (∀ (b : List (String × String)) (ts : List Tok) (n : String),
        lookupB b n = none → countPh n (substToks b ts) = countPh n ts)
    ∧ resolve "Hi <Name>" [] = "Hi <Name>"
    ∧ resolve "Hi <Name>" [("Name", "Ada")] = "Hi Ada" := by
  refine ⟨?_, by decide, by decide⟩
  intro b ts n hnone
  induction ts with
  | nil => rfl
  | cons t rest ih =>
    cases t with
    | lit c => simp [substToks, countPh, ih]
    | ph m =>
      cases hm : lookupB b m with
      | some v =>
        have hmn : m ≠ n := by
          intro he; rw [he, hnone] at hm; exact Option.noConfusion hm
        simp [substToks, hm, countPh_append, countPh_map_lit, countPh,
          hmn, ih]
      | none => simp [substToks, hm, countPh, ih]

/-- Witness for C4: an unbound placeholder is counted unchanged through
the substitution pass. -/
theorem resolve_passthrough_witness :
    countPh "Name" (substToks [("Other", "x")] [Tok.ph "Name", Tok.lit 'a'])
      = countPh "Name" [Tok.ph "Name", Tok.lit 'a'] :=
  resolve_passthrough.1 [("Other", "x")] [Tok.ph "Name", Tok.lit 'a'] "Name"
    (by decide)

/-- Drop characters up to and including the next closing angle bracket:
skipping over one markup tag whose opening bracket was already consumed. -/
def dropThroughGt : List Char → Option (List Char)
  | [] => none
  | c :: r => if c = '>' then some r else dropThroughGt r

/-- Skip any run of whitespace and complete markup tags, as the RichHTML
placeholder pattern tolerates markup interleaved with the placeholder. -/
def skipTagsSpaces : Nat → List Char → List Char
  | 0, l => l
  | fuel + 1, l =>
    let l1 := l.dropWhile fun ch => ch.isWhitespace
    match l1 with
    | '<' :: r =>
      match dropThroughGt r with
      | some r2 => skipTagsSpaces fuel r2
      | none => l1
    | _ => l1

/-- Strip a concrete expected character sequence from the front of the
input, returning the remainder on success. -/
def stripLead : List Char → List Char → Option (List Char)
  | [], l => some l
  | _ :: _, [] => none
  | p :: ps, c :: cs => if p = c then stripLead ps cs else none

/-- Modelled from the spec: match the literal RichHTML placeholder form
for key k — an angle-bracket pair around the name, tolerating extra
interior whitespace. -/
def matchKeyLit (k : String) (l : List Char) : Option (List Char) :=
  match l with
  | '<' :: r =>
    match stripLead k.data (r.dropWhile fun ch => ch.isWhitespace) with
    | some r2 =>
      match r2.dropWhile (fun ch => ch.isWhitespace) with
      | '>' :: rest => some rest
      | _ => none
    | none => none
  | _ => none

/-- Modelled from the spec: match the HTML-entity-escaped RichHTML
placeholder form for key k, tolerating interior whitespace and complete
markup tags interleaved between the entity delimiters and the name. -/
def matchKeyEsc (k : String) (l : List Char) : Option (List Char) :=
  match stripLead "&lt;".data l with
  | none => none
  | some r =>
    match stripLead k.data (skipTagsSpaces r.length r) with
    | none => none
    | some r2 =>
      match stripLead "&gt;".data (skipTagsSpaces r2.length r2) with
      | some rest => some rest
      | none => none

/-- The four RichHTML placeholder forms for one key, tried in order. -/
def matchKey (k : String) (l : List Char) : Option (List Char) :=
  match matchKeyLit k l with
  | some rest => some rest
  | none => matchKeyEsc k l

/-- Try every binding at the current scan position. -/
def matchBindings : List (String × String) → List Char →
    Option (String × List Char)
  | [], _ => none
  | (k, v) :: rest, l =>
    match matchKey k l with
    | some r => some (v, r)
    | none => matchBindings rest l

/-- Modelled from the spec: the single RichHTML substitution pass — at
each position, if the placeholder pattern of some binding matches, emit the
bound value verbatim (it is never re-scanned) and continue after the
match; otherwise emit the character and advance. -/
def resolveHtmlAux : Nat → List (String × String) → List Char → List Char
  | 0, _, l => l
  | _ + 1, _, [] => []
  | fuel + 1, b, c :: r =>
    match matchBindings b (c :: r) with
    | some (v, rest) => v.data ++ resolveHtmlAux fuel b rest
    | none => c :: resolveHtmlAux fuel b r

/-- Modelled from the spec: resolve(template, bindings) in RichHTML mode. -/
def resolveHtml (b : List (String × String)) (s : String) : String :=
  String.mk (resolveHtmlAux s.data.length b s.data)

/-- Claim C5: in RichHTML mode the resolver substitutes the same value for
all four placeholder forms — literal, entity-escaped, interleaved with
markup tags, and with extra interior whitespace — and the substitution is
a single non-recursive pass: a substituted value is never itself
re-scanned (substituting a value that itself looks like a placeholder
leaves that value verbatim in the output). -/
theorem resolveHtml_four_forms :
    resolveHtml [("Name", "Ada")] "Hi <Name>" = "Hi Ada"
    ∧ resolveHtml [("Name", "Ada")] "Hi &lt;Name&gt;" = "Hi Ada"
    ∧ resolveHtml [("Name", "Ada")] "Hi &lt;<em>Name</em>&gt;" = "Hi Ada"
    ∧ resolveHtml [("Name", "Ada")] "Hi < Name >" = "Hi Ada"
    ∧ resolveHtml [("A", "<B>"), ("B", "x")] "<A>" = "<B>" := by
  refine ⟨by decide, by decide, by decide, by decide, by decide⟩

/-! ## Part 2c: Content Normalizer document shell (modelled from the spec) -/

/-- The document shell text placed before the fragment: doctype, html and
head open, charset metadata, body open. -/
def shellPre : List Char :=
  "<!DOCTYPE html><html><head><meta charset=\"utf-8\"></head><body>".data

/-- The document shell text placed after the fragment. -/
def shellPost : List Char := "</body></html>".data

/-- The body-open marker searched for when stripping scaffolding. -/
def openBody : List Char := "<body>".data

/-- The body-close marker, reversed for the backwards search that finds
its last occurrence. -/
def closeBodyRev : List Char := "</body>".data.reverse

/-- Drop everything up to and including the first occurrence of the
pattern; none when the pattern does not occur. -/
def dropAfterFirst (pat : List Char) : List Char → Option (List Char)
  | [] => if pat.isEmpty then some [] else none
  | c :: r =>
    if pat.isPrefixOf (c :: r) then some (List.drop pat.length (c :: r))
    else dropAfterFirst pat r

/-- Modelled from the spec: strip existing outer document scaffolding —
when the input is an already-wrapped document, keep only the interior
between the first body-open tag and the last body-close tag; otherwise
return the input unchanged. -/
def stripOuter (l : List Char) : List Char :=
  match dropAfterFirst openBody l with
  | none => l
  | some afterOpen =>
    match dropAfterFirst closeBodyRev afterOpen.reverse with
    | none => l
    | some revMid => revMid.reverse

/-- Modelled from the spec: wrap a canonical HTML fragment in the minimal
self-contained document shell, stripping any existing outer scaffolding
first so that repeated wrapping does not nest document shells. -/
def wrapDocument (f : String) : String :=
  String.mk (shellPre ++ stripOuter f.data ++ shellPost)

theorem shell_first (rest : List Char) :
    dropAfterFirst openBody (shellPre ++ rest) = some rest := by
  simp [shellPre, openBody, dropAfterFirst]

theorem shell_last (r : List Char) :
    dropAfterFirst closeBodyRev (shellPost.reverse ++ r) = some r := by
  simp [shellPost, closeBodyRev, dropAfterFirst]

theorem stripOuter_shell (m : List Char) :
    stripOuter (shellPre ++ m ++ shellPost) = m := by
  have h1 : dropAfterFirst openBody (shellPre ++ m ++ shellPost)
      = some (m ++ shellPost) := by
    rw [List.append_assoc]; exact shell_first (m ++ shellPost)
  have h2 : dropAfterFirst closeBodyRev ((m ++ shellPost).reverse)
      = some m.reverse := by
    rw [List.reverse_append]; exact shell_last m.reverse
  unfold stripOuter
  rw [h1]
  simp only [h2, List.reverse_reverse]

/-- The number of (possibly overlapping) occurrences of a pattern. -/
def countOccur (pat : List Char) : List Char → Nat
  | [] => 0
  | c :: r => (if pat.isPrefixOf (c :: r) then 1 else 0) + countOccur pat r

/-- Claim C6: the fragment-to-document wrapping step is idempotent — it
strips existing outer scaffolding before wrapping, so wrapping twice
equals wrapping once for every fragment, and the doubly wrapped document
carries exactly one doctype, one head and one body. -/
theorem wrap_document_idempotent :
    (∀ f : String, wrapDocument (wrapDocument f) = wrapDocument f)
    ∧ countOccur "<!DOCTYPE".data
        (wrapDocument (wrapDocument "Hello <b>world</b>")).data = 1
    ∧ countOccur "<head".data
        (wrapDocument (wrapDocument "Hello <b>world</b>")).data = 1
    ∧ countOccur "<body".data
        (wrapDocument (wrapDocument "Hello <b>world</b>")).data = 1 := by
  refine ⟨?_, by decide, by decide, by decide⟩
  intro f
  show String.mk
      (shellPre ++ stripOuter (shellPre ++ stripOuter f.data ++ shellPost)
        ++ shellPost) = wrapDocument f
  rw [stripOuter_shell]
  rfl

/-! ## Part 2d: markdown-lite link conversion (modelled from the spec) -/

/-- Anchor markup for a url/text pair. -/
def anchorFor (url txt : List Char) : List Char :=
  "<a href=\"".data ++ url ++ "\">".data ++ txt ++ "</a>".data

/-- Collect the characters before the next occurrence of the stop
character, together with the remainder after it. -/
def takeUntil (stop : Char) : List Char → Option (List Char × List Char)
  | [] => none
  | c :: r =>
    if c = stop then some ([], r)
    else
      match takeUntil stop r with
      | some (xs, rest) => some (c :: xs, rest)
      | none => none

/-- Modelled from the spec: the explicit hyperlink pass of the
markdown-lite transform — bracketed text followed by a parenthesised url
becomes anchor markup; everything else is copied through. -/
def linkPass : Nat → List Char → List Char
  | 0, l => l
  | _ + 1, [] => []
  | fuel + 1, c :: r =>
    if c = '[' then
      match takeUntil ']' r with
      | some (txt, r1) =>
        match r1 with
        | '(' :: r2 =>
          match takeUntil ')' r2 with
          | some (url, r3) => anchorFor url txt ++ linkPass fuel r3
          | none => c :: linkPass fuel r
        | _ => c :: linkPass fuel r
      | none => c :: linkPass fuel r
    else c :: linkPass fuel r

def httpPat : List Char := "http://".data

def httpsPat : List Char := "https://".data

/-- The reversed double-quoted href opener, for the negative look-behind. -/
def hrefQuoteRev : List Char := "href=\"".data.reverse

/-- The reversed single-quoted href opener (the quote written by code
point to keep the sources ASCII-clean), for the negative look-behind. -/
def hrefAposRev : List Char := ("href=".data ++ [Char.ofNat 39]).reverse

/-- The reversed end of an anchor opening tag, so a url that is itself
the text of an existing anchor is not wrapped again. -/
def anchorEndRev : List Char := "\">".data.reverse

/-- The look-behind of the auto-linker: the url is already inside
hyperlink markup when the preceding text ends in an href opener or in an
anchor-tag close. -/
def blockedAt (prev : List Char) : Bool :=
  hrefQuoteRev.isPrefixOf prev || hrefAposRev.isPrefixOf prev ||
    anchorEndRev.isPrefixOf prev

/-- A character that may be part of a bare url: anything up to the next
whitespace, quote, bracket or closing parenthesis. -/
def urlChar (c : Char) : Bool :=
  !(c.isWhitespace || c = '"' || c = Char.ofNat 39 || c = '<' || c = ')')

/-- Modelled from the spec: the bare-url auto-link pass — wrap an
http(s) url in anchor markup unless the negative look-behind shows it is
already inside hyperlink markup.  prev holds the already-scanned text,
reversed. -/
def autoLink : Nat → List Char → List Char → List Char
  | 0, _, l => l
  | _ + 1, _, [] => []
  | fuel + 1, prev, c :: r =>
    if (httpPat.isPrefixOf (c :: r) || httpsPat.isPrefixOf (c :: r))
        && !blockedAt prev then
      let url := (c :: r).takeWhile urlChar
      anchorFor url url ++
        autoLink fuel (url.reverse ++ prev) ((c :: r).dropWhile urlChar)
    else c :: autoLink fuel (c :: prev) r

/-- Modelled from the spec: markdown-lite to HTML restricted to the two
link transforms, explicit links first, then bare-url auto-linking. -/
def mdToHtml (s : String) : String :=
  let linked := linkPass s.data.length s.data
  String.mk (autoLink linked.length [] linked)

/-- The number of anchor elements in a rendered string. -/
def countAnchors (s : String) : Nat := countOccur "<a ".data s.data

/-- Claim C7: url auto-linking never wraps a url that already lies inside
hyperlink markup: whenever the already-scanned text ends with an href opener
the auto-linker copies the url character-by-character instead of wrapping
it, and converting the explicit link on the concrete inputs produces
exactly one anchor element (two when a second, bare url follows). -/
theorem autolink_no_double_wrap :
    (∀ (fuel : Nat) (prev r : List Char),
        hrefQuoteRev.isPrefixOf prev = true →
        autoLink (fuel + 1) prev ("http://".data ++ r)
          = 'h' :: autoLink fuel ('h' :: prev) ("ttp://".data ++ r))
    ∧ countAnchors (mdToHtml "[t](http://a)") = 1
    ∧ mdToHtml "[t](http://a)" = "<a href=\"http://a\">t</a>"
    ∧ countAnchors (mdToHtml "see http://a") = 1
    ∧ countAnchors (mdToHtml "[t](http://a) and http://b") = 2 := by
  refine ⟨?_, by decide, by decide, by decide, by decide⟩
  intro fuel prev r h
  simp [autoLink, blockedAt, h, httpPat, httpsPat]

/-- Witness for C7: the look-behind blocks the wrap when the url directly
follows an href opener. -/
theorem autolink_no_double_wrap_witness :
    autoLink (4 + 1) hrefQuoteRev ("http://".data ++ [])
      = 'h' :: autoLink 4 ('h' :: hrefQuoteRev) ("ttp://".data ++ []) :=
  autolink_no_double_wrap.1 4 hrefQuoteRev [] (by decide)
